import Mathlib

/-!
Verification of the maptiler-go multipart-upload core: a shallow embedding of
the range partitioner, the result collection and ordering of `Client.upload`,
the ingest/finalize response handling, the `process`/`withCancel` orchestration
with compensating cancellation, the file validation helper `fileInfo`, and an
operational model of the generic worker pool (`pool.Start` / `Stop` / `Enqueue`).

Go `int64` values are modelled as `Int`; the claims under study never exercise
64-bit wrap-around (iteration over ranges stops at the first zero length).
External effects (HTTP calls, `os.Stat`) are modelled as oracle inputs
describing the outcome the environment produced.
-/

namespace Maptiler

/-- Embedding of `getRange` (client.go:280-294): byte offset and length of part
`idx` of a file of `fileSize` bytes split into parts of `partSize` bytes. -/
def getRange (idx partSize fileSize : Int) : Int × Int :=
  if partSize ≤ 0 then (0, 0)
  else
    let off := idx * partSize
    if off ≥ fileSize then (off, 0)
    else
      let remaining := fileSize - off
      if remaining < partSize then (off, remaining) else (off, partSize)

/-- Helper: closed form of `getRange` used by several proofs. -/
lemma getRange_eq (idx partSize fileSize : Int) :
    getRange idx partSize fileSize =
      if partSize ≤ 0 then (0, 0)
      else if idx * partSize ≥ fileSize then (idx * partSize, 0)
      else (idx * partSize, min (fileSize - idx * partSize) partSize) := by
  simp only [getRange]
  split_ifs with h1 h2 h3
  · rfl
  · rfl
  · rw [min_eq_left (le_of_lt h3)]
  · rw [min_eq_right (le_of_not_lt h3)]

/-- Helper: the length computed for index `i` under positive part size. -/
lemma getRange_snd (idx partSize fileSize : Int) (hP : 0 < partSize) :
    (getRange idx partSize fileSize).2 =
      if idx * partSize ≥ fileSize then 0
      else min (fileSize - idx * partSize) partSize := by
  rw [getRange_eq]
  have : ¬partSize ≤ 0 := not_le.mpr hP
  simp only [this, if_false]
  split <;> rfl

/-- C3: `getRange` returns `(0,0)` for nonpositive part size, `(offset, 0)` past
end of file, and `(offset, min (fileSize - offset) partSize)` otherwise, with
`offset = idx * partSize`. -/
theorem getRange_cases (idx partSize fileSize : Int) :
    getRange idx partSize fileSize =
      if partSize ≤ 0 then (0, 0)
      else if idx * partSize ≥ fileSize then (idx * partSize, 0)
      else (idx * partSize, min (fileSize - idx * partSize) partSize) :=
  getRange_eq idx partSize fileSize

/-- Helper: `i < ⌈S/P⌉` over the integers is `i * P < S` for positive `P`. -/
lemma lt_ceilDiv_iff (S P i : Int) (hP : 0 < P) :
    i < ⌈(S : ℚ) / (P : ℚ)⌉ ↔ i * P < S := by
  rw [Int.lt_ceil, lt_div_iff₀ (by exact_mod_cast hP)]
  exact_mod_cast Iff.rfl

/-- Helper: `⌈S/P⌉ ≤ n` over the integers is `S ≤ n * P` for positive `P`. -/
lemma ceilDiv_le_iff (S P n : Int) (hP : 0 < P) :
    ⌈(S : ℚ) / (P : ℚ)⌉ ≤ n ↔ S ≤ n * P := by
  rw [Int.ceil_le, div_le_iff₀ (by exact_mod_cast hP)]
  exact_mod_cast Iff.rfl

/-- Helper: prefix sums of the lengths produced by `getRange` are `min S (k*P)`. -/
lemma sum_getRange_lengths (S P : Int) (hS : 0 ≤ S) (hP : 0 < P) (k : ℕ) :
    (∑ i ∈ Finset.range k, (getRange (i : Int) P S).2) = min S (k * P) := by
  induction k with
  | zero => simp [min_def]; omega
  | succ k ih =>
    rw [Finset.sum_range_succ, ih, getRange_snd _ _ _ hP]
    have hk : ((k + 1 : ℕ) : Int) * P = (k : Int) * P + P := by push_cast; ring
    rw [hk]
    split_ifs with h <;> omega

/-- C2: for `S ≥ 0` and `P > 0`, iterating `getRange` over `index = 0, 1, 2, …`
yields a nonzero length exactly for `index < ⌈S/P⌉`, every nonzero length lies
in `(0, P]`, and the lengths over any prefix covering all nonzero indices sum
to `S`. -/
theorem getRange_partition_property (S P : Int) (hS : 0 ≤ S) (hP : 0 < P) :
    (∀ i : ℕ, (getRange (i : Int) P S).2 ≠ 0 ↔ (i : Int) < ⌈(S : ℚ) / (P : ℚ)⌉) ∧
    (∀ i : ℕ, (getRange (i : Int) P S).2 ≠ 0 →
      0 < (getRange (i : Int) P S).2 ∧ (getRange (i : Int) P S).2 ≤ P) ∧
    (∀ n : ℕ, ⌈(S : ℚ) / (P : ℚ)⌉ ≤ (n : Int) →
      (∑ i ∈ Finset.range n, (getRange (i : Int) P S).2) = S) := by
  refine ⟨fun i => ?_, fun i => ?_, fun n hn => ?_⟩
  · rw [getRange_snd _ _ _ hP, lt_ceilDiv_iff _ _ _ hP]
    split_ifs with h <;> constructor <;> intro h2 <;> omega
  · rw [getRange_snd _ _ _ hP]
    split_ifs with h <;> intro h2 <;> omega
  · rw [sum_getRange_lengths _ _ hS hP]
    have := (ceilDiv_le_iff S P n hP).mp hn
    omega

/-- Witness for C2 at the spec scenario `S = 35`, `P = 10`: four parts whose
lengths sum to 35, and index 3 is the last nonzero index. -/
theorem getRange_partition_property_witness :
    ((0 : Int) ≤ 35 ∧ (0 : Int) < 10) ∧
    (∑ i ∈ Finset.range 4, (getRange (i : Int) 10 35).2) = 35 ∧
    ((getRange (3 : Int) 10 35).2 ≠ 0 ↔ (3 : Int) < ⌈(35 : ℚ) / (10 : ℚ)⌉) :=
  ⟨⟨by norm_num, by norm_num⟩,
   (getRange_partition_property 35 10 (by norm_num) (by norm_num)).2.2 4
     (by rw [ceilDiv_le_iff _ _ _ (by norm_num)]; norm_num),
   (getRange_partition_property 35 10 (by norm_num) (by norm_num)).1 3⟩

/-! ## Data model of upload parts and results (model.go) -/

/-- `ingestUploadTypeS3MultiPart` constant from model.go. -/
def ingestUploadTypeS3MultiPart : String := "s3_multipart"

/-- Embedding of `uploadTaskResponse`: one completed part, `PartID` an `int64`
and `ETag` the integrity token. -/
structure uploadTaskResponse where
  PartID : Int
  ETag : String
deriving DecidableEq, Repr

/-- Embedding of `UploadResult` (model.go): ingest ID, upload type and the
collected part responses. -/
structure UploadResult where
  ID : String
  Type' : String
  Parts : List uploadTaskResponse
deriving DecidableEq, Repr

/-- Embedding of `newUploadResult` (model.go). -/
def newUploadResult (id : String) (parts : List uploadTaskResponse) : UploadResult :=
  { ID := id, Type' := ingestUploadTypeS3MultiPart, Parts := parts }

/-! ## Result collection in `Client.upload` (client.go:218-275)

The collector goroutine executes `results[fmt.Sprint(r.PartID)] = r` for each
response read from the channel; a Go map assignment overwrites the entry with
the same key.  The map is modelled as an association list in insertion order;
Go's arbitrary map-iteration order (`maps.Values`) is modelled by quantifying
over every permutation of the stored values, and `slices.SortFunc` (whose
comparator orders by the numeric `PartID`, and which is not guaranteed stable)
by quantifying over every permutation of the values that is nondecreasing in
`PartID`. -/

/-- One collector step: `results[fmt.Sprint(r.PartID)] = r`. -/
def insertResult (m : List (String × uploadTaskResponse)) (r : uploadTaskResponse) :
    List (String × uploadTaskResponse) :=
  if m.any (fun p => p.1 = toString r.PartID) then
    m.map (fun p => if p.1 = toString r.PartID then (toString r.PartID, r) else p)
  else m ++ [(toString r.PartID, r)]

/-- The collector loop `for r := range respCh { results[fmt.Sprint(r.PartID)] = r }`
over the stream of responses in arrival order. -/
def buildResults (rs : List uploadTaskResponse) : List (String × uploadTaskResponse) :=
  rs.foldl insertResult []

/-- The values held by the results map (`maps.Values`, before iteration-order
nondeterminism is applied). -/
def uploadValues (rs : List uploadTaskResponse) : List uploadTaskResponse :=
  (buildResults rs).map Prod.snd

/-- Invariant of the results map: each entry is keyed by the decimal string of
its value's `PartID`, and keys are pairwise distinct. -/
def ResultsInv (m : List (String × uploadTaskResponse)) : Prop :=
  (∀ p ∈ m, p.1 = toString p.2.PartID) ∧ m.Pairwise (fun p q => p.1 ≠ q.1)

lemma resultsInv_insert (m : List (String × uploadTaskResponse))
    (r : uploadTaskResponse) (h : ResultsInv m) : ResultsInv (insertResult m r) := by
  obtain ⟨hkey, hnd⟩ := h
  unfold insertResult
  split_ifs with hmem
  · constructor
    · intro p hp
      rcases List.mem_map.mp hp with ⟨q, hq, hpq⟩
      by_cases hk : q.1 = toString r.PartID
      · simp only [hk, if_pos rfl] at hpq
        subst hpq; rfl
      · rw [if_neg hk] at hpq
        subst hpq; exact hkey q hq
    · refine List.Pairwise.map _ ?_ hnd
      intro p q hpq
      by_cases hp : p.1 = toString r.PartID <;>
        by_cases hq : q.1 = toString r.PartID <;>
          simp [hp, hq] <;> simp_all
  · constructor
    · intro p hp
      rcases List.mem_append.mp hp with hp | hp
      · exact hkey p hp
      · simp only [List.mem_singleton] at hp
        subst hp; rfl
    · rw [List.pairwise_append]
      refine ⟨hnd, List.pairwise_singleton _ _, ?_⟩
      intro p hp q hq
      simp only [List.mem_singleton] at hq
      subst hq
      simp only [List.any_eq_true, decide_eq_true_eq] at hmem
      intro hcontra
      exact hmem ⟨p, hp, hcontra⟩

lemma resultsInv_buildResults (rs : List uploadTaskResponse) :
    ResultsInv (buildResults rs) := by
  suffices h : ∀ m, ResultsInv m → ResultsInv (rs.foldl insertResult m) by
    exact h [] ⟨by simp, List.Pairwise.nil⟩
  induction rs with
  | nil => intro m hm; exact hm
  | cons r rs ih => intro m hm; exact ih _ (resultsInv_insert m r hm)

/-- Helper: the values stored in the results map have pairwise distinct
`PartID`s — the keys are their decimal strings and keys are distinct. -/
lemma uploadValues_pairwise_ne (rs : List uploadTaskResponse) :
    (uploadValues rs).Pairwise (fun a b => a.PartID ≠ b.PartID) := by
  obtain ⟨hkey, hnd⟩ := resultsInv_buildResults rs
  unfold uploadValues
  rw [List.pairwise_map]
  refine hnd.imp_of_mem ?_
  intro p q hp hq hne heq
  exact hne (by rw [hkey p hp, hkey q hq, heq])

/-- C1: any output of sorting (nondecreasing in numeric `PartID`) any
iteration order of the collected results map is strictly ascending in
`PartID`; hence the `Parts` of the `UploadResult` returned by a successful
`Client.upload` are strictly ascending by numeric part ID, whatever order the
worker responses arrived in (`rs`). -/
theorem upload_parts_strictly_ascending (id : String)
    (rs vs out : List uploadTaskResponse)
    (hvs : vs.Perm (uploadValues rs)) (hout : out.Perm vs)
    (hsorted : out.Pairwise (fun a b => a.PartID ≤ b.PartID)) :
    (newUploadResult id out).Parts.Pairwise (fun a b => a.PartID < b.PartID) := by
  have hne : out.Pairwise (fun a b => a.PartID ≠ b.PartID) :=
    ((hout.trans hvs).pairwise_iff (fun h => Ne.symm h)).mpr
      (uploadValues_pairwise_ne rs)
  have := hsorted.and hne
  exact this.imp (fun h => lt_of_le_of_ne h.1 h.2)

/-- Witness for C1: three responses arrive out of order (part 3 before part 1),
the map values are read in yet another order, and the sorted output `1,2,3` is
strictly ascending. -/
theorem upload_parts_strictly_ascending_witness :
    (newUploadResult "ing1"
        [⟨1, "a"⟩, ⟨2, "b"⟩, ⟨3, "c"⟩]).Parts.Pairwise
      (fun a b => a.PartID < b.PartID) :=
  upload_parts_strictly_ascending "ing1"
    [⟨3, "c"⟩, ⟨1, "a"⟩, ⟨2, "b"⟩]
    [⟨2, "b"⟩, ⟨3, "c"⟩, ⟨1, "a"⟩]
    [⟨1, "a"⟩, ⟨2, "b"⟩, ⟨3, "c"⟩]
    (by decide) (by decide) (by decide)

/-! ## Responses, errors and the HTTP oracle

Each remote call in client.go runs `req.Execute` and then inspects the
response: transport error (`err != nil`), HTTP error status (`resp.IsError()`),
JSON decoding (`json.Unmarshal`), and finally the decoded body.  `RespOutcome`
is the oracle describing which of these the environment produced. -/

/-- Embedding of `MapTilerError` (model.go). -/
structure MapTilerError where
  Message : String
deriving DecidableEq, Repr

/-- Embedding of `uploadPart` (model.go). -/
structure uploadPart where
  PartID : Int
  URL : String
deriving DecidableEq, Repr

/-- Embedding of `upload` (model.go): the upload plan of an ingest response. -/
structure upload where
  PartSize : Int
  Parts : List uploadPart
  Type' : String
deriving DecidableEq, Repr

/-- Embedding of `IngestResponse` (model.go); `Progress float64` is carried as
an uninterpreted rational stand-in since no claim touches it. -/
structure IngestResponse where
  ID : String
  DocumentID : String
  State : String
  Filename : String
  Size : Int
  Progress : ℚ
  Error : MapTilerError
  Upload : upload
  UploadURL : String
deriving DecidableEq, Repr

/-- Errors produced by the client, mirroring the `error` values built in
client.go and errors.go.  `uploadFailed`/`uploadFailedErr` model
`UploadFailedError{ID}` with nil and non-nil `Err`; `uploadFailedWith` models
`fmt.Errorf("upload failed with: %w", err)`; `uploadAndCancelFailed` models
`fmt.Errorf("upload failed: %w; cancel failed: %w", err, cerr)`. -/
inductive CErr where
  | fileNotExist (fp : String)
  | fileIsDir (fp : String)
  | transport (msg : String)
  | requestFailed (status : Int)
  | decodeFailed (msg : String)
  | poolFailed (msg : String)
  | uploadFailed (id : String)
  | uploadFailedErr (id : String) (inner : CErr)
  | uploadFailedWith (inner : CErr)
  | uploadAndCancelFailed (orig : CErr) (cancelErr : CErr)
deriving DecidableEq, Repr

/-- Oracle for one `req.Execute` + response inspection: transport failure,
HTTP error status, or a body that decodes to `some ir` (or fails to decode). -/
inductive RespOutcome where
  | execErr (msg : String)
  | httpErr (status : Int)
  | body (decoded : Option IngestResponse)
deriving DecidableEq, Repr

/-- Embedding of `Client.ingest` (client.go:298-330) as a function of the HTTP
oracle: transport error is returned as-is, an error status becomes
"request failed with %d", a decode failure is returned, and a decoded body in
state "failed" becomes `UploadFailedError{ID: ir.ID}`. -/
def ingest (ro : RespOutcome) : Except CErr IngestResponse :=
  match ro with
  | .execErr m => .error (.transport m)
  | .httpErr s => .error (.requestFailed s)
  | .body none => .error (.decodeFailed "unmarshal")
  | .body (some ir) =>
    if ir.State = "failed" then .error (.uploadFailed ir.ID)
    else .ok ir

/-- Embedding of `Client.finalize` (client.go:334-358): a transport error
becomes `UploadFailedError{ID: ur.ID}` (line 338), an error status becomes
"request failed with %d", a decode failure is returned, and a decoded body in
state "failed" becomes `UploadFailedError{ID: ur.ID}`. -/
def finalize (ur : UploadResult) (ro : RespOutcome) : Except CErr IngestResponse :=
  match ro with
  | .execErr _ => .error (.uploadFailed ur.ID)
  | .httpErr s => .error (.requestFailed s)
  | .body none => .error (.decodeFailed "unmarshal")
  | .body (some ir) =>
    if ir.State = "failed" then .error (.uploadFailed ur.ID)
    else .ok ir

/-- C4: a response that decodes but reports state "failed" makes both `ingest`
and `finalize` return an `UploadFailedError` carrying the ingestion ID instead
of a successful `IngestResponse`. -/
theorem ingest_finalize_failed_state (ir : IngestResponse) (ur : UploadResult)
    (h : ir.State = "failed") :
    ingest (.body (some ir)) = .error (.uploadFailed ir.ID) ∧
    finalize ur (.body (some ir)) = .error (.uploadFailed ur.ID) := by
  constructor <;> simp [ingest, finalize, h]

/-- Witness for C4 at a concrete decoded response with state "failed". -/
theorem ingest_finalize_failed_state_witness :
    ingest (.body (some
        { ID := "ing7", DocumentID := "", State := "failed", Filename := "f",
          Size := 1, Progress := 0, Error := ⟨""⟩,
          Upload := ⟨0, [], ""⟩, UploadURL := "" })) =
      .error (.uploadFailed "ing7") ∧
    finalize (newUploadResult "ing7" [])
      (.body (some
        { ID := "ing7", DocumentID := "", State := "failed", Filename := "f",
          Size := 1, Progress := 0, Error := ⟨""⟩,
          Upload := ⟨0, [], ""⟩, UploadURL := "" })) =
      .error (.uploadFailed "ing7") :=
  ingest_finalize_failed_state
    { ID := "ing7", DocumentID := "", State := "failed", Filename := "f",
      Size := 1, Progress := 0, Error := ⟨""⟩,
      Upload := ⟨0, [], ""⟩, UploadURL := "" }
    (newUploadResult "ing7" []) rfl

/-! ## File validation (client.go:362-373) -/

/-- The slice of `os.FileInfo` the client reads: `Name()`, `Size()`, `IsDir()`. -/
structure FInfo where
  Name : String
  Size : Int
  IsDir : Bool
deriving DecidableEq, Repr

/-- Oracle for `os.Stat`: success with file info, a not-exist error, or any
other error (permission, I/O, ...), for which Go returns a nil `FileInfo`. -/
inductive StatOutcome where
  | ok (info : FInfo)
  | notExist
  | otherErr
deriving DecidableEq, Repr

/-- Embedding of `fileInfo` (client.go:362-373).  `Except CErr (Option FInfo)`:
the `Option` is Go's possibly-nil `os.FileInfo` interface value; for a stat
error that is neither nil nor not-exist the function falls through to
`return info, nil` with `info = nil`, i.e. `.ok none`. -/
def fileInfo (fp : String) : StatOutcome → Except CErr (Option FInfo)
  | .ok info =>
    if info.IsDir then .error (.fileIsDir fp) else .ok (some info)
  | .notExist => .error (.fileNotExist fp)
  | .otherErr => .ok none

/-- C9: for a stat error that is neither nil nor a not-exist error, `fileInfo`
returns a nil error together with a nil `FileInfo`; it returns a non-nil error
exactly in the not-exist and is-a-directory cases. -/
theorem fileInfo_other_error (fp : String) :
    fileInfo fp .otherErr = .ok none ∧
    ∀ st : StatOutcome, (∃ e, fileInfo fp st = .error e) ↔
      (st = .notExist ∨ ∃ i, st = .ok i ∧ i.IsDir = true) := by
  refine ⟨rfl, fun st => ?_⟩
  cases st with
  | ok i =>
    cases hd : i.IsDir <;> simp [fileInfo, hd]
  | notExist => simp [fileInfo]
  | otherErr => simp [fileInfo]

/-! ## Orchestration: `process` and `withCancel` (client.go:92-186)

`process` is modelled as a function of an environment of oracle outcomes (one
per external effect) that also returns the trace of remote calls it issued, so
that the compensating-cancel accounting of C5 and the no-side-effect part of
C7 are statable.  `Client.upload` is abstracted by its outcome
(`uploadOutcome`): either the list of collected part responses or the error of
the failing role; its ordering behaviour is covered separately by C1. -/

/-- Remote side effects issued by the orchestration, in order. -/
inductive RCall where
  | ingestCall
  | uploadCall
  | finalizeCall
  | cancelCall (id : String)
deriving DecidableEq, Repr

/-- Outcome of running `process`: a returned value, or a Go runtime panic
(which occurs when `fileInfo` yields a nil `os.FileInfo` with nil error and
`info.Name()` dereferences it). -/
inductive ProcOutcome where
  | panicked
  | result (r : Except CErr IngestResponse)
deriving Repr

/-- Oracle environment for one `process` run. -/
structure ProcEnv where
  fp : String
  stat : StatOutcome
  ingestResp : RespOutcome
  uploadOutcome : Except CErr (List uploadTaskResponse)
  finalizeResp : RespOutcome

/-- Embedding of `Client.process` (client.go:139-168) with its remote-call
trace: validate the file, ingest, upload, finalize; upload and finalize
errors are wrapped in `UploadFailedError{ID: resp.ID, Err: err}`. -/
def process (env : ProcEnv) : ProcOutcome × List RCall :=
  match fileInfo env.fp env.stat with
  | .error e => (.result (.error e), [])
  | .ok none => (.panicked, [])
  | .ok (some _info) =>
    match ingest env.ingestResp with
    | .error e => (.result (.error e), [.ingestCall])
    | .ok ir =>
      match env.uploadOutcome with
      | .error e =>
        (.result (.error (.uploadFailedErr ir.ID e)), [.ingestCall, .uploadCall])
      | .ok parts =>
        match finalize (newUploadResult ir.ID parts) env.finalizeResp with
        | .error e =>
          (.result (.error (.uploadFailedErr ir.ID e)),
           [.ingestCall, .uploadCall, .finalizeCall])
        | .ok presp =>
          (.result (.ok presp), [.ingestCall, .uploadCall, .finalizeCall])

/-- Embedding of `errors.As(err, &uerr)` for `UploadFailedError`: matches the
error itself, or descends through the `fmt.Errorf` `%w` wrap chains modelled
by `uploadFailedWith` and `uploadAndCancelFailed` (`UploadFailedError` itself
has no `Unwrap` method, so its `Err` field is not traversed). -/
def asUploadFailed : CErr → Option String
  | .uploadFailed id => some id
  | .uploadFailedErr id _ => some id
  | .uploadFailedWith inner => asUploadFailed inner
  | .uploadAndCancelFailed a b => (asUploadFailed a).orElse (fun _ => asUploadFailed b)
  | _ => none

/-- Embedding of `Client.withCancel` (client.go:172-186), with the remote-call
trace extended by the compensating `cancel` call when one is issued; the
`cancelRes` oracle is what `c.cancel` would return. -/
def withCancel (runOut : ProcOutcome × List RCall)
    (cancelRes : Except CErr IngestResponse) : ProcOutcome × List RCall :=
  match runOut with
  | (.panicked, tr) => (.panicked, tr)
  | (.result (.ok ir), tr) => (.result (.ok ir), tr)
  | (.result (.error err), tr) =>
    match asUploadFailed err with
    | some uid =>
      match cancelRes with
      | .error cerr =>
        (.result (.error (.uploadAndCancelFailed err cerr)), tr ++ [.cancelCall uid])
      | .ok _ =>
        (.result (.error (.uploadFailedWith err)), tr ++ [.cancelCall uid])
    | none => (.result (.error (.uploadFailedWith err)), tr)

/-- Embedding of `Client.Create` (client.go:92-98): `withCancel` around
`process` (the empty dataset ID only selects the create URL). -/
def Create (env : ProcEnv) (cancelRes : Except CErr IngestResponse) :
    ProcOutcome × List RCall :=
  withCancel (process env) cancelRes

/-- Embedding of `Client.Update` (client.go:102-108): the same composition as
`Create`, with the dataset ID selecting the update URL. -/
def Update (env : ProcEnv) (cancelRes : Except CErr IngestResponse) :
    ProcOutcome × List RCall :=
  withCancel (process env) cancelRes

/-- The IDs passed to the compensating cancel calls of a trace. -/
def cancelIdsOf (tr : List RCall) : List String :=
  tr.filterMap fun c => match c with | .cancelCall id => some id | _ => none

/-- Modelled from the spec: "If failure occurs after ingestion-ID acquisition"
— `some id` iff the run fails at a step after an ingestion ID was obtained
from the ingest response, carrying that ID; `none` for runs failing earlier
and for fully successful runs. -/
def specFailedAfterIngestID (env : ProcEnv) : Option String :=
  match fileInfo env.fp env.stat with
  | .error _ => none
  | .ok none => none
  | .ok (some _) =>
    match env.ingestResp with
    | .body (some ir) =>
      if ir.State = "failed" then some ir.ID
      else
        match env.uploadOutcome with
        | .error _ => some ir.ID
        | .ok parts =>
          match finalize (newUploadResult ir.ID parts) env.finalizeResp with
          | .error _ => some ir.ID
          | .ok _ => none
    | _ => none

/-- Helper: the cancel calls issued by `withCancel (process env)` are exactly
one call with the obtained ingestion ID when the run failed after ID
acquisition, and none otherwise. -/
lemma cancelIds_withCancel_process (env : ProcEnv)
    (cancelRes : Except CErr IngestResponse) :
    cancelIdsOf (withCancel (process env) cancelRes).2 =
      (match specFailedAfterIngestID env with
       | some id => [id]
       | none => []) := by
  obtain ⟨fp, stat, iresp, uout, fresp⟩ := env
  simp only [process, specFailedAfterIngestID]
  cases stat with
  | ok i =>
    cases hd : i.IsDir with
    | true =>
      cases cancelRes <;> simp [fileInfo, hd, withCancel, asUploadFailed, cancelIdsOf]
    | false =>
      simp only [fileInfo, hd, Bool.false_eq_true, if_false]
      cases iresp with
      | execErr m =>
        cases cancelRes <;> simp [ingest, withCancel, asUploadFailed, cancelIdsOf]
      | httpErr s =>
        cases cancelRes <;> simp [ingest, withCancel, asUploadFailed, cancelIdsOf]
      | body dec =>
        cases dec with
        | none =>
          cases cancelRes <;> simp [ingest, withCancel, asUploadFailed, cancelIdsOf]
        | some ir =>
          by_cases hs : ir.State = "failed"
          · cases cancelRes <;>
              simp [ingest, hs, withCancel, asUploadFailed, cancelIdsOf]
          · simp only [ingest, hs, if_false]
            cases uout with
            | error e =>
              cases cancelRes <;> simp [withCancel, asUploadFailed, cancelIdsOf]
            | ok parts =>
              cases hfin : finalize (newUploadResult ir.ID parts) fresp with
              | error e =>
                cases cancelRes <;>
                  simp [hfin, withCancel, asUploadFailed, cancelIdsOf]
              | ok presp =>
                cases cancelRes <;>
                  simp [hfin, withCancel, asUploadFailed, cancelIdsOf]
  | notExist =>
    cases cancelRes <;> simp [fileInfo, withCancel, asUploadFailed, cancelIdsOf]
  | otherErr =>
    cases cancelRes <;> simp [fileInfo, withCancel, cancelIdsOf]

/-- C5: a `Create` or `Update` run issues exactly one compensating cancel call,
with the obtained ingestion ID, iff it fails after an ingestion ID was
obtained; runs failing earlier and fully successful runs issue none. -/
theorem create_update_cancel_calls (env : ProcEnv)
    (cancelRes : Except CErr IngestResponse) :
    cancelIdsOf (Create env cancelRes).2 =
      (match specFailedAfterIngestID env with
       | some id => [id]
       | none => []) ∧
    cancelIdsOf (Update env cancelRes).2 =
      (match specFailedAfterIngestID env with
       | some id => [id]
       | none => []) :=
  ⟨cancelIds_withCancel_process env cancelRes,
   cancelIds_withCancel_process env cancelRes⟩

/-- `errors.Is`-style containment along the `fmt.Errorf` `%w` wrap chain: an
error includes itself, `uploadFailedWith` includes what it wraps, and the
two-verb wrap `uploadAndCancelFailed` includes both wrapped errors. -/
def errIncludes (e target : CErr) : Bool :=
  decide (e = target) ||
  match e with
  | .uploadFailedWith inner => errIncludes inner target
  | .uploadAndCancelFailed a b => errIncludes a target || errIncludes b target
  | _ => false

/-- Helper: containment is reflexive. -/
lemma errIncludes_refl (e : CErr) : errIncludes e e = true := by
  unfold errIncludes
  simp

/-- C6: when the compensating cancel triggered by an `UploadFailedError` fails,
`withCancel` returns the single combined error
`upload failed: %w; cancel failed: %w` that reports both the original error
and the cancel error; in particular the original error is contained in what is
returned, never replaced. -/
theorem withCancel_combines_errors (err cerr : CErr) (tr : List RCall)
    (uid : String) (h : asUploadFailed err = some uid) :
    (withCancel (.result (.error err), tr) (.error cerr)).1 =
      .result (.error (.uploadAndCancelFailed err cerr)) ∧
    errIncludes (.uploadAndCancelFailed err cerr) err = true ∧
    errIncludes (.uploadAndCancelFailed err cerr) cerr = true := by
  refine ⟨by simp [withCancel, h], ?_, ?_⟩ <;>
  · rw [errIncludes]
    simp [errIncludes_refl]

/-- Witness for C6: a concrete `UploadFailedError` with a failing cancel. -/
theorem withCancel_combines_errors_witness :
    (withCancel (.result (.error (.uploadFailed "ing9")), [RCall.ingestCall])
        (.error (.transport "cancel down"))).1 =
      .result (.error (.uploadAndCancelFailed (.uploadFailed "ing9")
        (.transport "cancel down"))) ∧
    errIncludes
        (.uploadAndCancelFailed (.uploadFailed "ing9") (.transport "cancel down"))
        (.uploadFailed "ing9") = true ∧
    errIncludes
        (.uploadAndCancelFailed (.uploadFailed "ing9") (.transport "cancel down"))
        (.transport "cancel down") = true :=
  withCancel_combines_errors (.uploadFailed "ing9") (.transport "cancel down")
    [RCall.ingestCall] "ing9" rfl

/-- Validation errors: the two failure messages of `fileInfo`. -/
def CErr.isValidation : CErr → Bool
  | .fileNotExist _ => true
  | .fileIsDir _ => true
  | _ => false

/-- C7: when local validation fails (missing file or directory), `process`
returns a validation error and its remote-call trace is empty — no remote
side effects. -/
theorem process_validation_no_remote_calls (env : ProcEnv)
    (h : env.stat = .notExist ∨ ∃ i, env.stat = .ok i ∧ i.IsDir = true) :
    (process env).2 = [] ∧
    ∃ e, (process env).1 = .result (.error e) ∧ e.isValidation = true := by
  obtain ⟨fp, stat, iresp, uout, fresp⟩ := env
  rcases h with h | ⟨i, h, hd⟩ <;> subst h
  · exact ⟨rfl, ⟨.fileNotExist fp, rfl, rfl⟩⟩
  · refine ⟨?_, ⟨.fileIsDir fp, ?_, rfl⟩⟩ <;>
      simp [process, fileInfo, hd]

/-- Witness for C7: a run on a missing file returns a validation error with an
empty remote trace. -/
theorem process_validation_no_remote_calls_witness :
    (process ⟨"missing.gpkg", .notExist, .body none, .ok [], .body none⟩).2 = [] ∧
    ∃ e, (process ⟨"missing.gpkg", .notExist, .body none, .ok [],
        .body none⟩).1 = .result (.error e) ∧ e.isValidation = true :=
  process_validation_no_remote_calls
    ⟨"missing.gpkg", .notExist, .body none, .ok [], .body none⟩ (Or.inl rfl)

/-! ## Worker pool (pool.go)

Operational model of the generic pool: `Start` spawns `concurrency` copies of
the worker loop `pool.process` (pool.go:85-99) under one `errgroup`; each
worker repeatedly `select`s between `ctx.Done()` and the tasks channel.  The
model is a small-step system driven by an explicit schedule of events: an
external cancellation of the scope, the generator's `Stop`, or one worker
taking one loop iteration (with the schedule resolving Go's nondeterministic
`select` when both branches are ready).  A task is abstracted by what its
processing returns: `none` for success, `some msg` for an error.  The
`errgroup` semantics — the first goroutine to return a non-nil error has its
error recorded once and cancels the shared context; `Wait` returns that first
error or nil — is part of the step function.  `processed` and `extCancels`
are bookkeeping fields recording the tasks taken so far and the number of
external cancellations. -/

/-- A worker's non-nil return value: the context's error or a task error. -/
inductive WErr where
  | ctxCanceled
  | procErr (msg : String)
deriving DecidableEq, Repr

/-- A worker goroutine: still looping, or returned with `none` (nil) or a
`WErr`. -/
inductive WStatus where
  | running
  | done (res : Option WErr)
deriving DecidableEq, Repr

/-- State of one `pool.Start` run: the buffered tasks channel (front = next
receive), its closed flag, the shared scope's cancellation flag, the worker
goroutines, and the error recorded by the errgroup. -/
structure PoolSt where
  tasks : List (Option String)
  closed : Bool
  canceled : Bool
  workers : List WStatus
  firstErr : Option WErr
  processed : List (Option String)
  extCancels : Nat
deriving DecidableEq, Repr

/-- Embedding of `pool.Stop` (pool.go:75-77): `close(wp.tasks)`. -/
def Stop (s : PoolSt) : PoolSt := { s with closed := true }

/-- Embedding of `pool.Enqueue` (pool.go:80-82): `wp.tasks <- t`.  Per the Go
language specification a send on a closed channel is a run-time panic; `none`
models that panic, `some` the task appended to the channel buffer. -/
def Enqueue (s : PoolSt) (t : Option String) : Option PoolSt :=
  if s.closed then none else some { s with tasks := s.tasks ++ [t] }

/-- Schedule events: cancel the shared scope, `Stop` the pool, or let worker
`w` take one loop iteration (`pick` resolves a `select` race in favour of
`ctx.Done()`). -/
inductive PEvent where
  | cancelScope
  | stopPool
  | wstep (w : Nat) (pick : Bool)
deriving DecidableEq, Repr

/-- errgroup bookkeeping for a non-nil worker return: the first error is
recorded and cancels the shared context; later errors are dropped. -/
def recordErr (s : PoolSt) (e : WErr) : PoolSt :=
  match s.firstErr with
  | some _ => s
  | none => { s with firstErr := some e, canceled := true }

/-- Replace the status of worker `w`. -/
def setWorker (s : PoolSt) (w : Nat) (st : WStatus) : PoolSt :=
  { s with workers := s.workers.set w st }

/-- The tasks-channel receive in the worker's `select` is ready: a buffered
task is available, or the channel is closed (receive yields `ok = false`). -/
def chanReady (s : PoolSt) : Bool := !s.tasks.isEmpty || s.closed

/-- One iteration of the worker loop `pool.process` (pool.go:85-99) by worker
`w`: `select` between `ctx.Done()` (return `ctx.Err()`) and the channel
(return nil if closed and drained, else process the task: return its error or
loop).  Blocked or finished workers leave the state unchanged. -/
def workerStep (s : PoolSt) (w : Nat) (pick : Bool) : PoolSt :=
  match s.workers[w]? with
  | some WStatus.running =>
    if s.canceled && (pick || !chanReady s) then
      recordErr (setWorker s w (.done (some .ctxCanceled))) .ctxCanceled
    else if chanReady s then
      match s.tasks with
      | [] => setWorker s w (.done none)
      | t :: rest =>
        match t with
        | some msg =>
          recordErr
            (setWorker
              { s with tasks := rest, processed := s.processed ++ [some msg] }
              w (.done (some (.procErr msg))))
            (.procErr msg)
        | none => { s with tasks := rest, processed := s.processed ++ [none] }
    else s
  | _ => s

/-- One scheduled event. -/
def poolStep (s : PoolSt) (ev : PEvent) : PoolSt :=
  match ev with
  | .cancelScope => { s with canceled := true, extCancels := s.extCancels + 1 }
  | .stopPool => Stop s
  | .wstep w pick => workerStep s w pick

/-- Initial state of `pool.Start` (pool.go:64-72) with `c` workers spawned and
the tasks `ts` already enqueued. -/
def startSt (c : Nat) (ts : List (Option String)) : PoolSt :=
  { tasks := ts, closed := false, canceled := false,
    workers := List.replicate c .running, firstErr := none,
    processed := [], extCancels := 0 }

/-- Run a schedule from the initial state. -/
def runPool (c : Nat) (ts : List (Option String)) (evs : List PEvent) : PoolSt :=
  evs.foldl poolStep (startSt c ts)

/-- All worker goroutines returned: the point at which `g.Wait()` (and hence
`Start`) returns, with value `firstErr` (`none` = nil). -/
def allDone (s : PoolSt) : Prop := ∀ w ∈ s.workers, w ≠ WStatus.running

instance allDone_decidable (s : PoolSt) : Decidable (allDone s) :=
  inferInstanceAs (Decidable (∀ w ∈ s.workers, w ≠ WStatus.running))

/-- Invariant of the pool run tying `Start`'s return value to the schedule. -/
def PoolInv (c : Nat) (ts : List (Option String)) (s : PoolSt) : Prop :=
  s.workers.length = c ∧
  s.processed ++ s.tasks = ts ∧
  (s.firstErr = none →
    (∀ t ∈ s.processed, t = none) ∧
    ∀ w ∈ s.workers, w = WStatus.running ∨ w = WStatus.done none) ∧
  ((∃ w ∈ s.workers, w = WStatus.done none) → s.tasks = []) ∧
  (s.canceled = true → 1 ≤ s.extCancels ∨ s.firstErr ≠ none) ∧
  (s.firstErr = some .ctxCanceled → 1 ≤ s.extCancels) ∧
  (∀ m, s.firstErr = some (.procErr m) → some m ∈ s.processed)

/-- Helper: a worker step preserves the pool invariant. -/
lemma poolInv_workerStep (c : Nat) (ts : List (Option String)) (s : PoolSt)
    (w : Nat) (pick : Bool) (h : PoolInv c ts s) :
    PoolInv c ts (workerStep s w pick) := by
  unfold PoolInv at h ⊢
  obtain ⟨hlen, happ, hclean, hdrain, hcanc, hctx, hproc⟩ := h
  cases hw : s.workers[w]? with
  | none =>
    simp only [workerStep, hw]
    exact ⟨hlen, happ, hclean, hdrain, hcanc, hctx, hproc⟩
  | some st =>
    cases st with
    | done r =>
      simp only [workerStep, hw]
      exact ⟨hlen, happ, hclean, hdrain, hcanc, hctx, hproc⟩
    | running =>
      simp only [workerStep, hw]
      by_cases hsel : (s.canceled && (pick || !chanReady s)) = true
      · rw [if_pos hsel]
        have hcT : s.canceled = true := by
          simp only [Bool.and_eq_true] at hsel
          exact hsel.1
        simp only [recordErr, setWorker]
        cases hfe : s.firstErr with
        | some e =>
          dsimp only
          refine ⟨by simp [hlen], happ, ?_, ?_, fun _ => Or.inr (by simp),
            fun h6 => hctx (hfe.trans h6), fun m hm => hproc m (hfe.trans hm)⟩
          · intro h0; simp at h0
          · rintro ⟨w', hw', he⟩
            rcases List.mem_or_eq_of_mem_set hw' with hmem | heq
            · exact hdrain ⟨w', hmem, he⟩
            · subst heq; simp at he
        | none =>
          dsimp only
          refine ⟨by simp [hlen], happ, ?_, ?_, ?_, ?_, ?_⟩
          · intro h0; simp at h0
          · rintro ⟨w', hw', he⟩
            rcases List.mem_or_eq_of_mem_set hw' with hmem | heq
            · exact hdrain ⟨w', hmem, he⟩
            · subst heq; simp at he
          · intro _; exact Or.inr (by simp)
          · intro _
            rcases hcanc hcT with h1 | h1
            · exact h1
            · exact absurd hfe h1
          · intro m hm; simp at hm
      · rw [if_neg hsel]
        by_cases hch : chanReady s = true
        · rw [if_pos hch]
          cases htk : s.tasks with
          | nil =>
            dsimp only
            refine ⟨by simp [setWorker, hlen], ?_, ?_, ?_, hcanc, hctx, hproc⟩
            · simpa [setWorker, htk] using happ
            · intro h0
              obtain ⟨hp, hws⟩ := hclean h0
              refine ⟨hp, ?_⟩
              intro w' hw'
              simp only [setWorker] at hw'
              rcases List.mem_or_eq_of_mem_set hw' with hmem | heq
              · exact hws w' hmem
              · exact Or.inr heq
            · intro _; simp [setWorker, htk]
          | cons t rest =>
            cases t with
            | some msg =>
              dsimp only
              simp only [recordErr, setWorker]
              cases hfe : s.firstErr with
              | some e =>
                dsimp only
                refine ⟨by simp [hlen], ?_, ?_, ?_, fun _ => Or.inr (by simp),
                  fun h6 => hctx (hfe.trans h6), ?_⟩
                · rw [List.append_assoc, List.singleton_append, ← htk]
                  exact happ
                · intro h0; simp at h0
                · rintro ⟨w', hw', he⟩
                  rcases List.mem_or_eq_of_mem_set hw' with hmem | heq
                  · exact absurd (hdrain ⟨w', hmem, he⟩) (by simp [htk])
                  · subst heq; simp at he
                · intro m hm
                  exact List.mem_append_left _ (hproc m (hfe.trans hm))
              | none =>
                dsimp only
                refine ⟨by simp [hlen], ?_, ?_, ?_, ?_, ?_, ?_⟩
                · rw [List.append_assoc, List.singleton_append, ← htk]
                  exact happ
                · intro h0; simp at h0
                · rintro ⟨w', hw', he⟩
                  rcases List.mem_or_eq_of_mem_set hw' with hmem | heq
                  · exact absurd (hdrain ⟨w', hmem, he⟩) (by simp [htk])
                  · subst heq; simp at he
                · intro _; exact Or.inr (by simp)
                · intro h6; simp at h6
                · intro m hm
                  simp only [Option.some.injEq, WErr.procErr.injEq] at hm
                  subst hm
                  exact List.mem_append_right _ (by simp)
            | none =>
              dsimp only
              refine ⟨hlen, ?_, ?_, ?_, hcanc, hctx, ?_⟩
              · rw [List.append_assoc, List.singleton_append, ← htk]
                exact happ
              · intro h0
                obtain ⟨hp, hws⟩ := hclean h0
                refine ⟨?_, hws⟩
                intro t ht
                rcases List.mem_append.mp ht with h1 | h1
                · exact hp t h1
                · simpa using h1
              · rintro ⟨w', hw', he⟩
                exact absurd (hdrain ⟨w', hw', he⟩) (by simp [htk])
              · intro m hm
                exact List.mem_append_left _ (hproc m hm)
        · rw [if_neg hch]
          exact ⟨hlen, happ, hclean, hdrain, hcanc, hctx, hproc⟩

/-- Helper: every scheduled event preserves the pool invariant. -/
lemma poolInv_step (c : Nat) (ts : List (Option String)) (s : PoolSt)
    (ev : PEvent) (h : PoolInv c ts s) : PoolInv c ts (poolStep s ev) := by
  cases ev with
  | cancelScope =>
    unfold PoolInv at h ⊢
    obtain ⟨hlen, happ, hclean, hdrain, hcanc, hctx, hproc⟩ := h
    simp only [poolStep]
    exact ⟨hlen, happ, hclean, hdrain,
      fun _ => Or.inl (by show 1 ≤ s.extCancels + 1; omega),
      fun h6 => by
        have h7 : s.firstErr = some WErr.ctxCanceled := h6
        have := hctx h7
        show 1 ≤ s.extCancels + 1
        omega,
      hproc⟩
  | stopPool =>
    unfold PoolInv at h ⊢
    obtain ⟨hlen, happ, hclean, hdrain, hcanc, hctx, hproc⟩ := h
    exact ⟨hlen, happ, hclean, hdrain, hcanc, hctx, hproc⟩
  | wstep w pick => exact poolInv_workerStep c ts s w pick h

/-- Helper: the invariant holds along any schedule from the initial state. -/
lemma poolInv_runPool (c : Nat) (ts : List (Option String)) (evs : List PEvent) :
    PoolInv c ts (runPool c ts evs) := by
  suffices h : ∀ s, PoolInv c ts s → PoolInv c ts (evs.foldl poolStep s) by
    refine h (startSt c ts) ?_
    unfold PoolInv startSt
    refine ⟨List.length_replicate c _, rfl, fun _ => ⟨by simp, ?_⟩, ?_, ?_, ?_, ?_⟩
    · intro w hw
      rw [List.eq_of_mem_replicate hw]
      exact Or.inl rfl
    · rintro ⟨w, hw, he⟩
      rw [List.eq_of_mem_replicate hw] at he
      cases he
    · intro h1; cases h1
    · intro h1; cases h1
    · intro m h1; cases h1
  induction evs with
  | nil => intro s hs; exact hs
  | cons ev evs ih => intro s hs; exact ih _ (poolInv_step c ts s ev hs)

/-- Helper: the first recorded error persists through any further events. -/
lemma firstErr_persist (s : PoolSt) (evs : List PEvent) (e : WErr)
    (h : s.firstErr = some e) : (evs.foldl poolStep s).firstErr = some e := by
  induction evs generalizing s with
  | nil => exact h
  | cons ev evs ih =>
    refine ih _ ?_
    cases ev with
    | cancelScope => exact h
    | stopPool => exact h
    | wstep w pick =>
      simp only [poolStep, workerStep]
      cases hw : s.workers[w]? with
      | none => exact h
      | some st =>
        cases st with
        | done r => exact h
        | running =>
          by_cases hsel : (s.canceled && (pick || !chanReady s)) = true
          · rw [if_pos hsel]
            simp [recordErr, setWorker, h]
          · rw [if_neg hsel]
            by_cases hch : chanReady s = true
            · rw [if_pos hch]
              cases htk : s.tasks with
              | nil => exact h
              | cons t rest =>
                cases t with
                | some msg => simp [recordErr, setWorker, h]
                | none => exact h
            · rw [if_neg hch]; exact h

/-- C8: for any schedule driving all workers of `pool.Start` to completion:
`concurrency` workers were spawned; a nil return means the queue was closed
and fully drained with every task succeeding; a returned task error was
raised by a worker processing one of the tasks and, once recorded, is the
error every extension of the schedule returns (first error wins); and the
cancellation error is returned only if the scope received an external
cancellation (`errgroup` records it only while no task error has occurred). -/
theorem pool_start_result (c : Nat) (ts : List (Option String))
    (evs : List PEvent) (hc : 0 < c) (hdone : allDone (runPool c ts evs)) :
    (runPool c ts evs).workers.length = c ∧
    ((runPool c ts evs).firstErr = none →
      (runPool c ts evs).tasks = [] ∧ ∀ t ∈ ts, t = none) ∧
    (∀ m, (runPool c ts evs).firstErr = some (.procErr m) → some m ∈ ts) ∧
    ((runPool c ts evs).firstErr = some .ctxCanceled →
      1 ≤ (runPool c ts evs).extCancels) ∧
    (∀ evs2 e, (runPool c ts evs).firstErr = some e →
      (runPool c ts (evs ++ evs2)).firstErr = some e) := by
  obtain ⟨hlen, happ, hclean, hdrain, hcanc, hctx, hproc⟩ := poolInv_runPool c ts evs
  refine ⟨hlen, ?_, ?_, hctx, ?_⟩
  · intro hfe
    obtain ⟨hp, hws⟩ := hclean hfe
    have hne : (runPool c ts evs).workers ≠ [] := by
      intro h0
      rw [h0] at hlen
      simp at hlen
      omega
    obtain ⟨w0, hw0⟩ := List.exists_mem_of_ne_nil _ hne
    have hw0d : w0 = WStatus.done none := by
      rcases hws w0 hw0 with h1 | h1
      · exact absurd h1 (hdone w0 hw0)
      · exact h1
    have htasks : (runPool c ts evs).tasks = [] := hdrain ⟨w0, hw0, hw0d⟩
    refine ⟨htasks, ?_⟩
    intro t ht
    have hpr : (runPool c ts evs).processed = ts := by
      rw [htasks, List.append_nil] at happ
      exact happ
    rw [← hpr] at ht
    exact hp t ht
  · intro m hfe
    have h1 : some m ∈ (runPool c ts evs).processed ++ (runPool c ts evs).tasks :=
      List.mem_append_left _ (hproc m hfe)
    rw [happ] at h1
    exact h1
  · intro evs2 e hfe
    rw [runPool, List.foldl_append]
    exact firstErr_persist _ evs2 e hfe

/-- Witness for C8: one worker, one succeeding task, schedule Stop then two
worker iterations; the run completes with nil error, a drained queue, and all
tasks successful. -/
theorem pool_start_result_witness :
    (runPool 1 [none]
      [PEvent.stopPool, PEvent.wstep 0 false, PEvent.wstep 0 false]).tasks = [] ∧
    ∀ t ∈ ([none] : List (Option String)), t = none :=
  (pool_start_result 1 [none]
    [PEvent.stopPool, PEvent.wstep 0 false, PEvent.wstep 0 false]
    (by decide) (by decide)).2.1 (by decide)

/-- C10: `Enqueue` after `Stop` is a run-time panic (a send on the closed
tasks channel), never a graceful rejection: its only behaviours are the panic
when the channel is closed and appending the task when it is open — no error
value is ever produced. -/
theorem enqueue_after_stop_panics (s : PoolSt) (t : Option String) :
    Enqueue (Stop s) t = none ∧
    Enqueue s t =
      (if s.closed then none else some { s with tasks := s.tasks ++ [t] }) := by
  constructor
  · simp [Enqueue, Stop]
  · rfl

end Maptiler
